import Mathlib

/-!
Shallow embedding of the reactor-network driver (`ReactorNet.cpp`) and of the
delegate-combination logic (`Delegator.h`) of the modifiedCantera sources,
together with theorems settling the specified properties.

Conventions of the embedding:
- `doublereal` values (times, tolerances, buffer entries) are modelled as `ℚ`,
  which is executable and has decidable equality; none of the verified
  properties depends on floating-point rounding.
- Raw `double*` buffers are modelled as total functions `Nat → ℚ` (a pointer is
  a memory viewed from some base offset); pointer arithmetic `y + start`
  becomes `ptrAdd y start`.
- C++ exceptions become `Except String`; a function that the source lets throw
  returns `Except String α`.
- External collaborators (the reactors and the CVODE integrator) are modelled
  as records of the operations the driver invokes on them, exactly the
  operations the source calls.
- The reactor handles `m_r` are shared by pointer with `m_reactors` in the
  source.  The model keeps the registration-time records in `m_r` and the
  current (mutated) reactor records in `m_reactors`; no verified property
  observes a registered handle through `m_r` after initialization, so the
  two representations agree on everything stated below.
-/

namespace CanteraZeroD

variable {σ ι : Type}

/-- Reactor type tags.  In the source these are integer constants; wall and
placeholder tags lie below `ReactorType`, while both the ordinary reactor tag
and `FlowReactorType` are at or above it. -/
inductive RType where
  | wallLike
  | ordinary
  | flowReactor
deriving DecidableEq

/-- Models the test `type() >= ReactorType` of `ReactorNet::initialize`:
a handle contributes only if its tag is at or above `ReactorType`. -/
def RType.qualifies : RType → Bool
  | RType.wallLike => false
  | RType.ordinary => true
  | RType.flowReactor => true

/-- External `Reactor` collaborator, as the capability record the driver
invokes: local state of type `σ`, fixed local size `neq`, sensitivity
parameter count, and the operations called from `ReactorNet.cpp`.
Operations that may throw in the source return `Except String`. -/
structure Reactor (σ : Type) where
  rtype : RType
  neq : Nat
  nSensParams : Nat
  state : σ
  rinit : ℚ → σ → σ
  updateState : (Nat → ℚ) → σ → Except String σ
  getInitialConditions : ℚ → σ → List ℚ
  evalEqs : ℚ → (Nat → ℚ) → (Nat → ℚ) → σ → Except String (List ℚ)
  componentIndex : String → Option Nat

/-- The reactor after its own `initialize(t0)` ran: only local state changes. -/
def initR (t0 : ℚ) (r : Reactor σ) : Reactor σ :=
  { r with state := r.rinit t0 r.state }

/-- The subsequence of registered handles whose tag qualifies
(`type() >= ReactorType`), in registration order. -/
def qualifying (hs : List (Reactor σ)) : List (Reactor σ) :=
  hs.filter fun h => h.rtype.qualifies

/-- External `Integrator` collaborator with abstract internal state `ι`:
the record of the operations `ReactorNet.cpp` invokes on `m_integ`. -/
structure IntegratorImpl (ι : Type) where
  setTolerances : ℚ → Nat → List ℚ → ι → ι
  setSensitivityTolerances : ℚ → ℚ → ι → ι
  setMaxStepSize : ℚ → ι → ι
  initInteg : ℚ → ι → ι
  integrate : ℚ → ι → ι
  step : ℚ → ι → ℚ × ι
  solution : ι → Nat → ℚ

/-- The `ReactorNet` state: the member variables of the class that
`ReactorNet.cpp` reads or writes. -/
structure ReactorNet (σ ι : Type) where
  m_r : List (Reactor σ)
  m_reactors : List (Reactor σ)
  m_size : List Nat
  m_nparams : List Nat
  m_nreactors : Nat
  m_integ : ι
  m_time : ℚ
  m_init : Bool
  m_nv : Nat
  m_rtol : ℚ
  m_rtolsens : ℚ
  m_atols : ℚ
  m_atolsens : ℚ
  m_maxstep : ℚ
  m_verbose : Bool
  m_ntotpar : Nat
  m_atol : List ℚ

/-- Total equation count accessor, `ReactorNet::neq()`. -/
def ReactorNet.neqTotal (net : ReactorNet σ ι) : Nat := net.m_nv

/-- A freshly constructed network with the handles `rs` registered.  Field
defaults are the constructor initializer list of `ReactorNet::ReactorNet()`.
Registration itself (`addReactor`) is declared in the class header, which is
not part of the visible source; it is modelled from the spec: the caller
registers an ordered collection of reactor handles before the first
initialize, and `m_nr` equals the number of registered handles. -/
def ReactorNet.mk0 (rs : List (Reactor σ)) (integ0 : ι) : ReactorNet σ ι :=
  { m_r := rs
    m_reactors := []
    m_size := []
    m_nparams := []
    m_nreactors := 0
    m_integ := integ0
    m_time := 0
    m_init := false
    m_nv := 0
    m_rtol := 1 / 1000000000
    m_rtolsens := 1 / 10000
    m_atols := 1 / 1000000000000000
    m_atolsens := 1 / 10000
    m_maxstep := -1
    m_verbose := false
    m_ntotpar := 0
    m_atol := [] }

/-- Pointer arithmetic: `ptrAdd y start` is the buffer view `y + start`. -/
def ptrAdd (y : Nat → ℚ) (start : Nat) : Nat → ℚ :=
  fun i => y (start + i)

/-- Overwrite the buffer positions `start, start+1, ...` with the values of
`vals`; all other positions keep their previous contents.  This models a
callee writing `vals.length` doubles through the pointer `y + start`. -/
def writeChunk (y : Nat → ℚ) (start : Nat) (vals : List ℚ) : Nat → ℚ :=
  fun i => if start ≤ i ∧ i - start < vals.length then vals.getD (i - start) 0 else y i

/-- Sum of the first `i` entries of a size table: the running offset that the
source accumulates with `start += m_size[n]`. -/
def sumTake (l : List Nat) (i : Nat) : Nat :=
  (l.take i).sum

/-- The loop body of `ReactorNet::initialize` (lines 35-58): iterate the
registered handles in order; a qualifying handle is initialized and its size
and sensitivity-parameter count are recorded and accumulated; a qualifying
flow reactor throws when more than one handle is registered (`m_nr > 1`). -/
def initLoop (t0 : ℚ) (nr : Nat) :
    List (Reactor σ) → ReactorNet σ ι → Except String (ReactorNet σ ι)
  | [], net => Except.ok net
  | h :: hs, net =>
    if h.rtype.qualifies then
      let r := initR t0 h
      let net2 : ReactorNet σ ι :=
        { net with
          m_reactors := net.m_reactors ++ [r]
          m_size := net.m_size ++ [r.neq]
          m_nparams := net.m_nparams ++ [r.nSensParams]
          m_ntotpar := net.m_ntotpar + r.nSensParams
          m_nv := net.m_nv + r.neq
          m_nreactors := net.m_nreactors + 1 }
      if h.rtype = RType.flowReactor ∧ nr > 1 then
        Except.error "ReactorNet::initialize: FlowReactors must be used alone."
      else
        initLoop t0 nr hs net2
    else
      initLoop t0 nr hs net

/-- `ReactorNet::initialize(t0)` (lines 26-73).  Note that the source resets
only `m_nv`, `m_reactors` and `m_nreactors` before the loop; the tables
`m_size` and `m_nparams` and the total `m_ntotpar` are NOT reset.  After the
loop the absolute-tolerance vector is resized to `neq()` and filled with the
scalar `m_atols`, the tolerances and maximum step size are forwarded to the
integrator, the integrator is initialized with the network as evaluator, and
`m_init` is set.  Verbose `writelog` output has no observable effect and is
not modelled. -/
def ReactorNet.initNet (impl : IntegratorImpl ι) (t0 : ℚ) (net : ReactorNet σ ι) :
    Except String (ReactorNet σ ι) := do
  let net1 : ReactorNet σ ι := { net with m_nv := 0, m_reactors := [], m_nreactors := 0 }
  let net2 ← initLoop t0 net.m_r.length net.m_r net1
  let net3 : ReactorNet σ ι := { net2 with m_atol := List.replicate net2.m_nv net2.m_atols }
  let i1 := impl.setTolerances net3.m_rtol net3.m_nv net3.m_atol net3.m_integ
  let i2 := impl.setSensitivityTolerances net3.m_rtolsens net3.m_atolsens i1
  let i3 := impl.setMaxStepSize net3.m_maxstep i2
  let i4 := impl.initInteg t0 i3
  Except.ok { net3 with m_integ := i4, m_init := true }

/-- The loop of `ReactorNet::updateState` (lines 135-142): scatter the packed
buffer into each reactor in order, advancing the offset by `m_size[n]`.  The
fall-through case (size table shorter than the reactor list) is never reached
from an initialized network; the source would index out of bounds there. -/
def updLoop (y : Nat → ℚ) :
    List (Reactor σ) → List Nat → Nat → Except String (List (Reactor σ))
  | [], _, _ => Except.ok []
  | r :: rs, sz :: szs, start => do
    let s2 ← r.updateState (ptrAdd y start) r.state
    let rest ← updLoop y rs szs (start + sz)
    Except.ok ({ r with state := s2 } :: rest)
  | r :: rs, [], _ => Except.ok (r :: rs)

/-- `ReactorNet::updateState(y)`: scatter a packed global vector into each
reactor state, in registration order, at the standard offsets. -/
def ReactorNet.updateState (y : Nat → ℚ) (net : ReactorNet σ ι) :
    Except String (ReactorNet σ ι) := do
  let rs ← updLoop y net.m_reactors net.m_size 0
  Except.ok { net with m_reactors := rs }

/-- `ReactorNet::advance(time)` (lines 75-84): lazy initialization (deriving a
default maximum step size from `time - m_time` when none is configured),
integrate to `time`, set `m_time = time` unconditionally, scatter the
integrator solution.  The lazily triggered `initialize()` call uses the
default initial time 0 of the declaration. -/
def ReactorNet.advance (impl : IntegratorImpl ι) (time : ℚ) (net : ReactorNet σ ι) :
    Except String (ReactorNet σ ι) := do
  let net1 ←
    if net.m_init then pure net
    else
      let net0 : ReactorNet σ ι :=
        if net.m_maxstep < 0 then { net with m_maxstep := time - net.m_time } else net
      net0.initNet impl 0
  let i2 := impl.integrate time net1.m_integ
  let net2 : ReactorNet σ ι := { net1 with m_integ := i2, m_time := time }
  net2.updateState (impl.solution i2)

/-- `ReactorNet::step(time)` (lines 86-95): lazy initialization as in
`advance`, one adaptive integrator step bounded by `time`, `m_time` set to the
time the solver actually reached, scatter, and that time returned. -/
def ReactorNet.step (impl : IntegratorImpl ι) (time : ℚ) (net : ReactorNet σ ι) :
    Except String (ℚ × ReactorNet σ ι) := do
  let net1 ←
    if net.m_init then pure net
    else
      let net0 : ReactorNet σ ι :=
        if net.m_maxstep < 0 then { net with m_maxstep := time - net.m_time } else net
      net0.initNet impl 0
  let si := impl.step time net1.m_integ
  let net2 : ReactorNet σ ι := { net1 with m_integ := si.2, m_time := si.1 }
  let net3 ← net2.updateState (impl.solution si.2)
  Except.ok (si.1, net3)

/-- The loop of `ReactorNet::eval` (lines 122-127): in registration order,
invoke each reactor evaluation with the buffer views `y + start`,
`ydot + start`, `p + pstart`, then advance the offsets by `m_size[n]` and
`m_nparams[n]`.  The reactor writes its `neq` derivative values through the
`ydot` pointer, modelled by `writeChunk`.  The fall-through cases are never
reached from an initialized network. -/
def evalLoop (t : ℚ) (y p : Nat → ℚ) :
    List (Reactor σ) → List Nat → List Nat → Nat → Nat → (Nat → ℚ) →
    Except String (Nat → ℚ)
  | [], _, _, _, _, ydot => Except.ok ydot
  | r :: rs, sz :: szs, np :: nps, start, pstart, ydot => do
    let vals ← r.evalEqs t (ptrAdd y start) (ptrAdd p pstart) r.state
    evalLoop t y p rs szs nps (start + sz) (pstart + np) (writeChunk ydot start vals)
  | _ :: _, _, _, _, _, ydot => Except.ok ydot

/-- The body of the `try` block of `ReactorNet::eval` (lines 120-127): scatter
`y` into every reactor state, then run the evaluation loop. -/
def ReactorNet.evalBody (t : ℚ) (y ydot p : Nat → ℚ) (net : ReactorNet σ ι) :
    Except String (ReactorNet σ ι × (Nat → ℚ)) := do
  let net2 ← net.updateState y
  let ydot2 ← evalLoop t y p net2.m_reactors net2.m_size net2.m_nparams 0 0 ydot
  Except.ok (net2, ydot2)

/-- Possible outcomes of the evaluator callback as seen by the integrator:
a normal return, a fatal abort (`showErrors(); error("Terminating
execution.")` after a caught failure), or an exception escaping across the
callback boundary.  The last constructor exists so that the boundary property
is statable; the source wraps the whole body in `try ... catch (...)`. -/
inductive EvalOutcome (σ ι : Type) where
  | returned : ReactorNet σ ι → (Nat → ℚ) → EvalOutcome σ ι
  | aborted : String → EvalOutcome σ ι
  | raised : String → EvalOutcome σ ι

/-- `ReactorNet::eval(t, y, ydot, p)` (lines 113-133): run the body inside a
catch-all; any failure is reported and converted into a fatal abort of the
run, and is never rethrown to the caller. -/
def ReactorNet.eval (t : ℚ) (y ydot p : Nat → ℚ) (net : ReactorNet σ ι) :
    EvalOutcome σ ι :=
  match net.evalBody t y ydot p with
  | Except.ok r => EvalOutcome.returned r.1 r.2
  | Except.error e => EvalOutcome.aborted e

/-- The loop of `ReactorNet::getInitialConditions` (lines 148-151): gather
each reactor initial local state into the buffer at the standard offsets. -/
def gicLoop (t0 : ℚ) :
    List (Reactor σ) → List Nat → Nat → (Nat → ℚ) → (Nat → ℚ)
  | [], _, _, y => y
  | r :: rs, sz :: szs, start, y =>
    gicLoop t0 rs szs (start + sz) (writeChunk y start (r.getInitialConditions t0 r.state))
  | _ :: _, [], _, y => y

/-- `ReactorNet::getInitialConditions(t0, leny, y)` (lines 144-152).  The
source never inspects `leny`: no length check is performed and the gather
always succeeds.  The `Except` result type records that the source has no
error path here. -/
def ReactorNet.getInitialConditions (t0 : ℚ) (leny : Nat) (y : Nat → ℚ)
    (net : ReactorNet σ ι) : Except String (Nat → ℚ) :=
  Except.ok (gicLoop t0 net.m_reactors net.m_size 0 y)

/-- `ReactorNet::globalComponentIndex(species, reactor)` (lines 154-159): sum
the sizes of the reactors before `reactor` (the source loop
`for (n = 0; n < reactor; n++) start += m_size[n]`), then add the local index
returned by that reactor component lookup; the lookup throws for an unknown
name.  An out-of-range reactor index is undefined behavior in the source and
is modelled as an error. -/
def ReactorNet.globalComponentIndex (species : String) (reactor : Nat)
    (net : ReactorNet σ ι) : Except String Nat :=
  let start := (List.range reactor).foldl (fun s n => s + net.m_size.getD n 0) 0
  match net.m_reactors[reactor]? with
  | none => Except.error "ReactorNet::globalComponentIndex: reactor index out of range"
  | some r =>
    match r.componentIndex species with
    | some k => Except.ok (start + k)
    | none => Except.error "ReactorNet::globalComponentIndex: unknown component name"


/-- Relation between a reactor record and the same reactor after its state
was mutated in place: every field except the local state agrees. -/
def sameShape (a b : Reactor σ) : Prop :=
  b = { a with state := b.state }

/-- A trivial integrator instance used to evaluate the theorems below on
concrete networks; its single adaptive step reaches exactly the requested
time. -/
def unitImpl : IntegratorImpl Unit :=
  { setTolerances := fun _ _ _ i => i
    setSensitivityTolerances := fun _ _ i => i
    setMaxStepSize := fun _ i => i
    initInteg := fun _ i => i
    integrate := fun _ i => i
    step := fun t i => (t, i)
    solution := fun _ _ => 0 }

/-- A concrete reactor with trivial dynamics, used to evaluate theorems. -/
def simpleR (tag : RType) (n np : Nat) : Reactor Unit :=
  { rtype := tag
    neq := n
    nSensParams := np
    state := ()
    rinit := fun _ s => s
    updateState := fun _ s => Except.ok s
    getInitialConditions := fun _ _ => List.replicate n 0
    evalEqs := fun _ _ _ _ => Except.ok (List.replicate n 0)
    componentIndex := fun _ => none }

/-- A concrete reactor whose derivative evaluation fails. -/
def badR : Reactor Unit :=
  { simpleR RType.ordinary 1 0 with evalEqs := fun _ _ _ _ => Except.error "boom" }

/-- A concrete reactor of local size 4 that knows the component name X at
local index 1. -/
def xR : Reactor Unit :=
  { simpleR RType.ordinary 4 0 with
    componentIndex := fun s => if s = "X" then some 1 else none }

/-- Concrete network: one ordinary reactor of size 2 with one sensitivity
parameter, freshly constructed. -/
def c1Net0 : ReactorNet Unit Unit := ReactorNet.mk0 [simpleR RType.ordinary 2 1] ()

/-- The network after a first `initialize(0)`. -/
def c1Net1 : ReactorNet Unit Unit := ((c1Net0.initNet unitImpl 0).toOption).getD c1Net0

/-- The network after a second `initialize(0)` on the same object. -/
def c1Net2 : ReactorNet Unit Unit := ((c1Net1.initNet unitImpl 0).toOption).getD c1Net1

/-- Zero-filled buffer. -/
def zbuf : Nat → ℚ := fun _ => 0

/-- Concrete freshly constructed one-reactor network for the eval theorem. -/
def c3Net0 : ReactorNet Unit Unit := ReactorNet.mk0 [simpleR RType.ordinary 1 0] ()

/-- The same network initialized. -/
def c3Net2 : ReactorNet Unit Unit := ((c3Net0.initNet unitImpl 0).toOption).getD c3Net0

/-- The callback outcome of the initialized network on zero buffers. -/
def c3Out : EvalOutcome Unit Unit := c3Net2.eval 0 zbuf zbuf zbuf

/-- The network scattered by the callback. -/
def c3Net3 : ReactorNet Unit Unit :=
  match c3Out with
  | EvalOutcome.returned n _ => n
  | _ => c3Net2

/-- The derivative buffer produced by the callback. -/
def c3Ydot : Nat → ℚ :=
  match c3Out with
  | EvalOutcome.returned _ d => d
  | _ => zbuf

/-- Concrete initialized network holding a reactor whose evaluation fails. -/
def c2Net : ReactorNet Unit Unit :=
  { ReactorNet.mk0 [badR] () with
    m_reactors := [badR], m_size := [1], m_nparams := [0], m_nv := 1, m_init := true }

/-- Concrete initialized network with one trivial reactor of size 1. -/
def wNetI : ReactorNet Unit Unit :=
  { ReactorNet.mk0 [simpleR RType.ordinary 1 0] () with
    m_reactors := [simpleR RType.ordinary 1 0]
    m_size := [1], m_nparams := [0], m_nv := 1, m_init := true }

/-- Result of `advance(3)` on the initialized concrete network. -/
def w6Net2 : ReactorNet Unit Unit := (wNetI.advance unitImpl 3).toOption.getD wNetI

/-- Result of `step(3)` on the initialized concrete network. -/
def w6Pair : ℚ × ReactorNet Unit Unit := (wNetI.step unitImpl 3).toOption.getD (0, wNetI)

/-- Result of `advance(3)` on a freshly constructed (uninitialized) network
with no configured maximum step size. -/
def c7Net2 : ReactorNet Unit Unit := (c3Net0.advance unitImpl 3).toOption.getD c3Net0

/-- A concrete reactor whose initial conditions are the singleton buffer 7. -/
def c9R : Reactor Unit :=
  { simpleR RType.ordinary 1 0 with getInitialConditions := fun _ _ => [7] }

/-- Concrete initialized network for the gather/scatter round trip. -/
def c9Net : ReactorNet Unit Unit :=
  { ReactorNet.mk0 [c9R] () with
    m_reactors := [c9R], m_size := [1], m_nparams := [0], m_nv := 1, m_init := true }

/-- Concrete initialized two-reactor network with local sizes 2 and 4; the
second reactor knows the name X at local index 1. -/
def c8Net : ReactorNet Unit Unit :=
  { ReactorNet.mk0 [simpleR RType.ordinary 2 0, xR] () with
    m_reactors := [simpleR RType.ordinary 2 0, xR]
    m_size := [2, 4], m_nparams := [0, 0], m_nv := 6, m_init := true }

/-- Concrete initialized network with total equation count 2, used to call
the gather with a mismatched buffer length. -/
def c5Net : ReactorNet Unit Unit :=
  { ReactorNet.mk0 [simpleR RType.ordinary 2 0] () with
    m_reactors := [simpleR RType.ordinary 2 0]
    m_size := [2], m_nparams := [0], m_nv := 2, m_init := true }

end CanteraZeroD

namespace CanteraBase

/-- `Delegator::makeDelegate` for value-returning methods (`Delegator.h`,
lines 272-315).  The delegate `func` receives the argument and returns the
`int` flag it reported together with the final contents of its output
parameter; `base` is the original method.  Mirrors the three `when` modes:
`before` returns the delegate value when the flag is nonzero and otherwise
falls back to the original; `after` runs the original, then the delegate, and
returns their sum when the flag is nonzero and the original result otherwise;
`replace` returns whatever the delegate left in the output parameter; any
other `when` throws. -/
def makeDelegateValue {R A : Type} [Add R] (func : A → Int × R) (when : String)
    (base : A → R) : Except String (A → R) :=
  if when = "before" then
    Except.ok (fun a =>
      let done := (func a).1
      if done ≠ 0 then (func a).2 else base a)
  else if when = "after" then
    Except.ok (fun a =>
      let ret1 := base a
      let done := (func a).1
      if done ≠ 0 then ret1 + (func a).2 else ret1)
  else if when = "replace" then
    Except.ok (fun a => (func a).2)
  else
    Except.error "Delegator::makeDelegate: when must be one of before, after, or replace"

/-- Concrete delegate that reports success and the value 3. -/
def c10Func : Unit → Int × Int := fun _ => (1, 3)

/-- Concrete delegate that reports failure, leaving the value 9 unused. -/
def c10FuncZero : Unit → Int × Int := fun _ => (0, 9)

/-- Concrete original method returning 4. -/
def c10Base : Unit → Int := fun _ => 4

/-- The combined method installed for the success delegate with after mode. -/
def c10Comb : Unit → Int :=
  (makeDelegateValue c10Func "after" c10Base).toOption.getD c10Base

/-- The combined method installed for the failure delegate with after mode. -/
def c10CombZero : Unit → Int :=
  (makeDelegateValue c10FuncZero "after" c10Base).toOption.getD c10Base

end CanteraBase

namespace CanteraZeroD

variable {σ ι : Type}

theorem exBind_ok {α β : Type} (a : α) (f : α → Except String β) :
    (Except.ok a >>= f : Except String β) = f a := rfl

theorem exBind_error {α β : Type} (e : String) (f : α → Except String β) :
    ((Except.error e : Except String α) >>= f) = Except.error e := rfl

theorem writeChunk_below (y : Nat → ℚ) (start : Nat) (vals : List ℚ) (i : Nat)
    (h : i < start) : writeChunk y start vals i = y i := by
  unfold writeChunk
  rw [if_neg (by omega)]

theorem writeChunk_at (y : Nat → ℚ) (start : Nat) (vals : List ℚ) (j : Nat)
    (h : j < vals.length) : writeChunk y start vals (start + j) = vals.getD j 0 := by
  unfold writeChunk
  have hj : start + j - start = j := by omega
  rw [if_pos (by omega), hj]

theorem sumTake_zero (l : List Nat) : sumTake l 0 = 0 := by
  simp [sumTake]

theorem sumTake_cons_succ (a : Nat) (l : List Nat) (i : Nat) :
    sumTake (a :: l) (i + 1) = a + sumTake l i := by
  simp [sumTake]

theorem initLoop_ok_eq (t0 : ℚ) (nr : Nat) (hs : List (Reactor σ)) :
    ∀ net net2 : ReactorNet σ ι, initLoop t0 nr hs net = Except.ok net2 →
    net2 = { net with
      m_reactors := net.m_reactors ++ (qualifying hs).map (initR t0)
      m_size := net.m_size ++ (qualifying hs).map fun r => r.neq
      m_nparams := net.m_nparams ++ (qualifying hs).map fun r => r.nSensParams
      m_nv := net.m_nv + ((qualifying hs).map fun r => r.neq).sum
      m_ntotpar := net.m_ntotpar + ((qualifying hs).map fun r => r.nSensParams).sum
      m_nreactors := net.m_nreactors + (qualifying hs).length } := by
  induction hs with
  | nil =>
    intro net net2 h
    simp only [initLoop, Except.ok.injEq] at h
    subst h
    simp [qualifying]
  | cons r hs ih =>
    intro net net2 h
    simp only [initLoop] at h
    by_cases hq : r.rtype.qualifies = true
    · rw [if_pos hq] at h
      split at h
      · exact absurd h (by simp)
      · rw [ih _ _ h]
        simp [qualifying, List.filter_cons, hq, initR, List.append_assoc,
          Nat.add_assoc, Nat.add_comm, Nat.add_left_comm]
    · rw [if_neg hq] at h
      rw [ih _ _ h]
      simp [qualifying, List.filter_cons, hq]

theorem initNet_ok_eq (impl : IntegratorImpl ι) (t0 : ℚ) (net net2 : ReactorNet σ ι)
    (h : net.initNet impl t0 = Except.ok net2) :
    net2 = { net with
      m_reactors := (qualifying net.m_r).map (initR t0)
      m_size := net.m_size ++ (qualifying net.m_r).map fun r => r.neq
      m_nparams := net.m_nparams ++ (qualifying net.m_r).map fun r => r.nSensParams
      m_nv := ((qualifying net.m_r).map fun r => r.neq).sum
      m_ntotpar := net.m_ntotpar + ((qualifying net.m_r).map fun r => r.nSensParams).sum
      m_nreactors := (qualifying net.m_r).length
      m_atol := List.replicate ((qualifying net.m_r).map fun r => r.neq).sum net.m_atols
      m_init := true
      m_integ := impl.initInteg t0 (impl.setMaxStepSize net.m_maxstep
        (impl.setSensitivityTolerances net.m_rtolsens net.m_atolsens
          (impl.setTolerances net.m_rtol ((qualifying net.m_r).map fun r => r.neq).sum
            (List.replicate ((qualifying net.m_r).map fun r => r.neq).sum net.m_atols)
            net.m_integ))) } := by
  simp only [ReactorNet.initNet] at h
  cases hL : initLoop t0 net.m_r.length net.m_r
      { net with m_nv := 0, m_reactors := [], m_nreactors := 0 } with
  | error e =>
    rw [hL, exBind_error] at h
    exact absurd h (by simp)
  | ok netL =>
    rw [hL, exBind_ok] at h
    simp only [Except.ok.injEq] at h
    have hEq := initLoop_ok_eq t0 net.m_r.length net.m_r _ _ hL
    subst hEq
    rw [← h]
    simp



theorem exPure {α : Type} (a : α) : (pure a : Except String α) = Except.ok a := rfl

theorem initLoop_error_of_flow (t0 : ℚ) (nr : Nat) (hnr : 1 < nr) :
    ∀ (hs : List (Reactor σ)), (∃ x ∈ hs, x.rtype = RType.flowReactor) →
    ∀ net : ReactorNet σ ι, ∃ e, initLoop t0 nr hs net = Except.error e := by
  intro hs
  induction hs with
  | nil =>
    intro hmem net
    simp at hmem
  | cons r hs ih =>
    intro hmem net
    simp only [initLoop]
    by_cases hf : r.rtype = RType.flowReactor
    · rw [if_pos (by simp [hf, RType.qualifies]), if_pos ⟨hf, hnr⟩]
      exact ⟨_, rfl⟩
    · have hmem2 : ∃ x ∈ hs, x.rtype = RType.flowReactor := by
        rcases hmem with ⟨x, hx, hxf⟩
        rcases List.mem_cons.mp hx with hxr | hxs
        · exact absurd (hxr ▸ hxf) hf
        · exact ⟨x, hxs, hxf⟩
      by_cases hq : r.rtype.qualifies = true
      · rw [if_pos hq, if_neg (fun hc => hf hc.1)]
        exact ih hmem2 _
      · rw [if_neg hq]
        exact ih hmem2 _

theorem initLoop_ok_of_le_one (t0 : ℚ) (nr : Nat) (hnr : nr ≤ 1) :
    ∀ (hs : List (Reactor σ)) (net : ReactorNet σ ι),
    ∃ net2, initLoop t0 nr hs net = Except.ok net2 := by
  intro hs
  induction hs with
  | nil =>
    intro net
    exact ⟨net, rfl⟩
  | cons r hs ih =>
    intro net
    simp only [initLoop]
    by_cases hq : r.rtype.qualifies = true
    · rw [if_pos hq, if_neg (fun hc => absurd hc.2 (by omega))]
      exact ih _
    · rw [if_neg hq]
      exact ih _

theorem updateState_ok_inv (y : Nat → ℚ) (net net2 : ReactorNet σ ι)
    (h : net.updateState y = Except.ok net2) :
    ∃ rs, updLoop y net.m_reactors net.m_size 0 = Except.ok rs ∧
      net2 = { net with m_reactors := rs } := by
  simp only [ReactorNet.updateState] at h
  cases hL : updLoop y net.m_reactors net.m_size 0 with
  | error e =>
    rw [hL, exBind_error] at h
    exact absurd h (by simp)
  | ok rs =>
    rw [hL, exBind_ok] at h
    simp only [Except.ok.injEq] at h
    exact ⟨rs, rfl, h.symm⟩

theorem advance_ok_inv (impl : IntegratorImpl ι) (T : ℚ) (net net2 : ReactorNet σ ι)
    (h : net.advance impl T = Except.ok net2) :
    ∃ net1 : ReactorNet σ ι,
      ((net.m_init = true ∧ net1 = net) ∨
        (net.m_init = false ∧
          (if net.m_maxstep < 0 then { net with m_maxstep := T - net.m_time }
            else net).initNet impl 0 = Except.ok net1)) ∧
      ∃ rs, updLoop (impl.solution (impl.integrate T net1.m_integ))
          net1.m_reactors net1.m_size 0 = Except.ok rs ∧
        net2 = { net1 with
          m_integ := impl.integrate T net1.m_integ
          m_time := T
          m_reactors := rs } := by
  simp only [ReactorNet.advance] at h
  by_cases hI : net.m_init = true
  · rw [if_pos hI, exPure, exBind_ok] at h
    rcases updateState_ok_inv _ _ _ h with ⟨rs, hL, hEq⟩
    exact ⟨net, Or.inl ⟨hI, rfl⟩, rs, hL, by rw [hEq]⟩
  · rw [if_neg hI] at h
    have hIf : net.m_init = false := by
      cases hB : net.m_init
      · rfl
      · exact absurd hB hI
    cases hN : (if net.m_maxstep < 0 then { net with m_maxstep := T - net.m_time }
        else net).initNet impl 0 with
    | error e =>
      rw [hN, exBind_error] at h
      exact absurd h (by simp)
    | ok net1 =>
      rw [hN, exBind_ok] at h
      rcases updateState_ok_inv _ _ _ h with ⟨rs, hL, hEq⟩
      exact ⟨net1, Or.inr ⟨hIf, rfl⟩, rs, hL, by rw [hEq]⟩

theorem step_ok_inv (impl : IntegratorImpl ι) (T : ℚ) (net : ReactorNet σ ι)
    (tr : ℚ) (net3 : ReactorNet σ ι)
    (h : net.step impl T = Except.ok (tr, net3)) :
    ∃ net1 : ReactorNet σ ι,
      ((net.m_init = true ∧ net1 = net) ∨
        (net.m_init = false ∧
          (if net.m_maxstep < 0 then { net with m_maxstep := T - net.m_time }
            else net).initNet impl 0 = Except.ok net1)) ∧
      tr = (impl.step T net1.m_integ).1 ∧
      ∃ rs, updLoop (impl.solution (impl.step T net1.m_integ).2)
          net1.m_reactors net1.m_size 0 = Except.ok rs ∧
        net3 = { net1 with
          m_integ := (impl.step T net1.m_integ).2
          m_time := tr
          m_reactors := rs } := by
  simp only [ReactorNet.step] at h
  by_cases hI : net.m_init = true
  · rw [if_pos hI, exPure, exBind_ok] at h
    cases hU : ReactorNet.updateState (impl.solution (impl.step T net.m_integ).2)
        { net with
          m_integ := (impl.step T net.m_integ).2
          m_time := (impl.step T net.m_integ).1 } with
    | error e =>
      rw [hU, exBind_error] at h
      exact absurd h (by simp)
    | ok netU =>
      rw [hU, exBind_ok] at h
      simp only [Except.ok.injEq, Prod.mk.injEq] at h
      rcases h with ⟨htr, hnet⟩
      rcases updateState_ok_inv _ _ _ hU with ⟨rs, hL, hEq⟩
      refine ⟨net, Or.inl ⟨hI, rfl⟩, htr.symm, rs, hL, ?_⟩
      rw [← hnet, hEq, htr]
  · rw [if_neg hI] at h
    have hIf : net.m_init = false := by
      cases hB : net.m_init
      · rfl
      · exact absurd hB hI
    cases hN : (if net.m_maxstep < 0 then { net with m_maxstep := T - net.m_time }
        else net).initNet impl 0 with
    | error e =>
      rw [hN, exBind_error] at h
      exact absurd h (by simp)
    | ok net1 =>
      rw [hN, exBind_ok] at h
      cases hU : ReactorNet.updateState (impl.solution (impl.step T net1.m_integ).2)
          { net1 with
            m_integ := (impl.step T net1.m_integ).2
            m_time := (impl.step T net1.m_integ).1 } with
      | error e =>
        rw [hU, exBind_error] at h
        exact absurd h (by simp)
      | ok netU =>
        rw [hU, exBind_ok] at h
        simp only [Except.ok.injEq, Prod.mk.injEq] at h
        rcases h with ⟨htr, hnet⟩
        rcases updateState_ok_inv _ _ _ hU with ⟨rs, hL, hEq⟩
        refine ⟨net1, Or.inr ⟨hIf, rfl⟩, htr.symm, rs, hL, ?_⟩
        rw [← hnet, hEq, htr]

theorem forall₂_sameShape_refl : ∀ l : List (Reactor σ), List.Forall₂ sameShape l l := by
  intro l
  induction l with
  | nil => exact List.Forall₂.nil
  | cons a l ih => exact List.Forall₂.cons rfl ih

theorem updLoop_shape (y : Nat → ℚ) :
    ∀ (rs : List (Reactor σ)) (szs : List Nat) (start : Nat) (rs2 : List (Reactor σ)),
    updLoop y rs szs start = Except.ok rs2 → List.Forall₂ sameShape rs rs2 := by
  intro rs
  induction rs with
  | nil =>
    intro szs start rs2 h
    simp only [updLoop, Except.ok.injEq] at h
    subst h
    exact List.Forall₂.nil
  | cons r rs ih =>
    intro szs start rs2 h
    cases szs with
    | nil =>
      simp only [updLoop, Except.ok.injEq] at h
      subst h
      exact forall₂_sameShape_refl _
    | cons sz szs =>
      simp only [updLoop] at h
      cases hS : r.updateState (ptrAdd y start) r.state with
      | error e =>
        rw [hS, exBind_error] at h
        exact absurd h (by simp)
      | ok s2 =>
        rw [hS, exBind_ok] at h
        cases hR : updLoop y rs szs (start + sz) with
        | error e =>
          rw [hR, exBind_error] at h
          exact absurd h (by simp)
        | ok rest =>
          rw [hR, exBind_ok] at h
          simp only [Except.ok.injEq] at h
          subst h
          exact List.Forall₂.cons rfl (ih _ _ _ hR)

theorem sameShape_map_neq {rs rs2 : List (Reactor σ)}
    (h : List.Forall₂ sameShape rs rs2) :
    rs2.map (fun r => r.neq) = rs.map (fun r => r.neq) := by
  induction h with
  | nil => rfl
  | @cons a b l1 l2 hab htail ih =>
    have hb : b = { a with state := b.state } := hab
    simp only [List.map_cons, ih, List.cons.injEq]
    exact ⟨by rw [hb], trivial⟩

theorem sameShape_map_nparams {rs rs2 : List (Reactor σ)}
    (h : List.Forall₂ sameShape rs rs2) :
    rs2.map (fun r => r.nSensParams) = rs.map (fun r => r.nSensParams) := by
  induction h with
  | nil => rfl
  | @cons a b l1 l2 hab htail ih =>
    have hb : b = { a with state := b.state } := hab
    simp only [List.map_cons, ih, List.cons.injEq]
    exact ⟨by rw [hb], trivial⟩

theorem sameShape_mem {rs rs2 : List (Reactor σ)}
    (h : List.Forall₂ sameShape rs rs2) :
    ∀ b ∈ rs2, ∃ a, a ∈ rs ∧ b.evalEqs = a.evalEqs ∧ b.neq = a.neq := by
  induction h with
  | nil =>
    intro b hb
    simp at hb
  | @cons a b l1 l2 hab htail ih =>
    intro x hx
    rcases List.mem_cons.mp hx with hx1 | hx2
    · subst hx1
      have hb : x = { a with state := x.state } := hab
      exact ⟨a, List.mem_cons_self a l1, by rw [hb], by rw [hb]⟩
    · rcases ih x hx2 with ⟨a2, ha2, he⟩
      exact ⟨a2, List.mem_cons_of_mem _ ha2, he⟩

theorem evalLoop_below (t : ℚ) (y p : Nat → ℚ) :
    ∀ (rs : List (Reactor σ)) (szs nps : List Nat) (start pstart : Nat)
      (ydot ydotF : Nat → ℚ),
    evalLoop t y p rs szs nps start pstart ydot = Except.ok ydotF →
    ∀ i, i < start → ydotF i = ydot i := by
  intro rs
  induction rs with
  | nil =>
    intro szs nps start pstart ydot ydotF h i hi
    simp only [evalLoop, Except.ok.injEq] at h
    subst h
    rfl
  | cons r rs ih =>
    intro szs nps start pstart ydot ydotF h i hi
    cases szs with
    | nil =>
      simp only [evalLoop, Except.ok.injEq] at h
      subst h
      rfl
    | cons sz szs =>
      cases nps with
      | nil =>
        simp only [evalLoop, Except.ok.injEq] at h
        subst h
        rfl
      | cons np nps =>
        simp only [evalLoop] at h
        cases hV : r.evalEqs t (ptrAdd y start) (ptrAdd p pstart) r.state with
        | error e =>
          rw [hV, exBind_error] at h
          exact absurd h (by simp)
        | ok vals =>
          rw [hV, exBind_ok] at h
          have hrec := ih _ _ _ _ _ _ h i (by omega)
          rw [hrec, writeChunk_below _ _ _ _ hi]

theorem evalLoop_ok_spec (t : ℚ) (y p : Nat → ℚ) :
    ∀ (rs : List (Reactor σ)) (start pstart : Nat) (ydot ydotF : Nat → ℚ),
    (∀ r ∈ rs, ∀ ys ps vals, r.evalEqs t ys ps r.state = Except.ok vals →
      vals.length = r.neq) →
    evalLoop t y p rs (rs.map fun r => r.neq) (rs.map fun r => r.nSensParams)
      start pstart ydot = Except.ok ydotF →
    ∀ i (hi : i < rs.length),
      ∃ vals,
        (rs.get ⟨i, hi⟩).evalEqs t
          (ptrAdd y (start + sumTake (rs.map fun r => r.neq) i))
          (ptrAdd p (pstart + sumTake (rs.map fun r => r.nSensParams) i))
          (rs.get ⟨i, hi⟩).state = Except.ok vals ∧
        vals.length = (rs.get ⟨i, hi⟩).neq ∧
        ∀ j, j < vals.length →
          ydotF (start + sumTake (rs.map fun r => r.neq) i + j) = vals.getD j 0 := by
  intro rs
  induction rs with
  | nil =>
    intro start pstart ydot ydotF hE h i hi
    exact absurd hi (by simp)
  | cons r rs ih =>
    intro start pstart ydot ydotF hE h
    simp only [List.map_cons, evalLoop] at h
    cases hV : r.evalEqs t (ptrAdd y start) (ptrAdd p pstart) r.state with
    | error e =>
      rw [hV, exBind_error] at h
      exact absurd h (by simp)
    | ok vals0 =>
      rw [hV, exBind_ok] at h
      intro i hi
      have hlen0 : vals0.length = r.neq := hE r (List.mem_cons_self r rs) _ _ _ hV
      cases i with
      | zero =>
        refine ⟨vals0, ?_, by simpa using hlen0, ?_⟩
        · simpa [sumTake_zero] using hV
        · intro j hj
          simp only [sumTake_zero, Nat.add_zero]
          have h1 := evalLoop_below t y p rs _ _ _ _ _ _ h (start + j) (by omega)
          rw [h1, writeChunk_at _ _ _ _ hj]
      | succ i2 =>
        have hi2 : i2 < rs.length := by simpa using hi
        have hrec := ih (start + r.neq) (pstart + r.nSensParams)
          (writeChunk ydot start vals0) ydotF
          (fun r2 hr2 => hE r2 (List.mem_cons_of_mem _ hr2)) h i2 hi2
        rcases hrec with ⟨vals, hv, hlen, hyd⟩
        refine ⟨vals, ?_, by simpa using hlen, ?_⟩
        · simpa [sumTake_cons_succ, Nat.add_assoc] using hv
        · intro j hj
          have h2 := hyd j hj
          simpa [sumTake_cons_succ, Nat.add_assoc] using h2

theorem gicLoop_below (t0 : ℚ) :
    ∀ (rs : List (Reactor σ)) (szs : List Nat) (start : Nat) (y : Nat → ℚ) (i : Nat),
    i < start → gicLoop t0 rs szs start y i = y i := by
  intro rs
  induction rs with
  | nil =>
    intro szs start y i hi
    rfl
  | cons r rs ih =>
    intro szs start y i hi
    cases szs with
    | nil => rfl
    | cons sz szs =>
      simp only [gicLoop]
      rw [ih _ _ _ _ (by omega), writeChunk_below _ _ _ _ hi]

theorem gicLoop_chunks (t0 : ℚ) :
    ∀ (rs : List (Reactor σ)) (start : Nat) (y : Nat → ℚ),
    (∀ r ∈ rs, (r.getInitialConditions t0 r.state).length = r.neq) →
    ∀ i (hi : i < rs.length), ∀ j, j < (rs.get ⟨i, hi⟩).neq →
    gicLoop t0 rs (rs.map fun r => r.neq) start y
        (start + sumTake (rs.map fun r => r.neq) i + j) =
      ((rs.get ⟨i, hi⟩).getInitialConditions t0 (rs.get ⟨i, hi⟩).state).getD j 0 := by
  intro rs
  induction rs with
  | nil =>
    intro start y hlen i hi
    exact absurd hi (by simp)
  | cons r rs ih =>
    intro start y hlen i hi j hj
    cases i with
    | zero =>
      have hj2 : j < r.neq := by simpa using hj
      have hlr : (r.getInitialConditions t0 r.state).length = r.neq :=
        hlen r (List.mem_cons_self r rs)
      simp only [List.map_cons, gicLoop, sumTake_zero, Nat.add_zero, List.get_cons_zero]
      rw [gicLoop_below t0 rs _ _ _ _ (by omega),
        writeChunk_at _ _ _ _ (by omega)]
      rfl
    | succ i2 =>
      have hi2 : i2 < rs.length := by simpa using hi
      have hj2 : j < (rs.get ⟨i2, hi2⟩).neq := by simpa using hj
      have hrec := ih (start + r.neq) (writeChunk y start (r.getInitialConditions t0 r.state))
        (fun r2 hr2 => hlen r2 (List.mem_cons_of_mem _ hr2)) i2 hi2 j hj2
      simp only [List.map_cons, gicLoop, sumTake_cons_succ]
      simpa [Nat.add_assoc] using hrec

theorem updLoop_gic_roundtrip (t0 : ℚ) :
    ∀ (rs : List (Reactor σ)) (start : Nat) (y : Nat → ℚ),
    (∀ r ∈ rs, (r.getInitialConditions t0 r.state).length = r.neq) →
    (∀ r ∈ rs, ∀ g : Nat → ℚ,
      (∀ m, m < r.neq → g m = (r.getInitialConditions t0 r.state).getD m 0) →
      r.updateState g r.state = Except.ok r.state) →
    updLoop (gicLoop t0 rs (rs.map fun r => r.neq) start y) rs
      (rs.map fun r => r.neq) start = Except.ok rs := by
  intro rs
  induction rs with
  | nil =>
    intro start y hlen hid
    rfl
  | cons r rs ih =>
    intro start y hlen hid
    have hlr : (r.getInitialConditions t0 r.state).length = r.neq :=
      hlen r (List.mem_cons_self r rs)
    simp only [List.map_cons, gicLoop, updLoop]
    have hhead : r.updateState
        (ptrAdd (gicLoop t0 rs (rs.map fun r => r.neq) (start + r.neq)
          (writeChunk y start (r.getInitialConditions t0 r.state))) start) r.state =
        Except.ok r.state := by
      apply hid r (List.mem_cons_self r rs)
      intro m hm
      show gicLoop t0 rs (rs.map fun r => r.neq) (start + r.neq)
          (writeChunk y start (r.getInitialConditions t0 r.state)) (start + m) = _
      rw [gicLoop_below t0 rs _ _ _ _ (by omega), writeChunk_at _ _ _ _ (by omega)]
    rw [hhead, exBind_ok]
    rw [ih (start + r.neq) (writeChunk y start (r.getInitialConditions t0 r.state))
      (fun r2 hr2 => hlen r2 (List.mem_cons_of_mem _ hr2))
      (fun r2 hr2 => hid r2 (List.mem_cons_of_mem _ hr2)), exBind_ok]

theorem sumTake_succ_of_lt :
    ∀ (l : List Nat) (i : Nat), i < l.length →
    sumTake l (i + 1) = sumTake l i + l.getD i 0 := by
  intro l
  induction l with
  | nil =>
    intro i hi
    simp at hi
  | cons a l ih =>
    intro i hi
    cases i with
    | zero => simp [sumTake_cons_succ, sumTake_zero]
    | succ i2 =>
      rw [sumTake_cons_succ, sumTake_cons_succ, ih i2 (by simpa using hi)]
      simp [Nat.add_assoc]

theorem range_foldl_sumTake (l : List Nat) :
    ∀ i, i ≤ l.length →
    (List.range i).foldl (fun s n => s + l.getD n 0) 0 = sumTake l i := by
  intro i
  induction i with
  | zero =>
    intro _
    simp [sumTake]
  | succ i2 ih =>
    intro hle
    rw [List.range_succ, List.foldl_append]
    simp only [List.foldl_cons, List.foldl_nil]
    rw [ih (by omega), ← sumTake_succ_of_lt l i2 (by omega)]

theorem initNet_error_inv (impl : IntegratorImpl ι) (t0 : ℚ) (net : ReactorNet σ ι)
    (e : String)
    (hL : initLoop t0 net.m_r.length net.m_r
      { net with m_nv := 0, m_reactors := [], m_nreactors := 0 } = Except.error e) :
    net.initNet impl t0 = Except.error e := by
  simp only [ReactorNet.initNet]
  rw [hL, exBind_error]

theorem initNet_ok_of_loop (impl : IntegratorImpl ι) (t0 : ℚ) (net netL : ReactorNet σ ι)
    (hL : initLoop t0 net.m_r.length net.m_r
      { net with m_nv := 0, m_reactors := [], m_nreactors := 0 } = Except.ok netL) :
    ∃ net2, net.initNet impl t0 = Except.ok net2 := by
  simp only [ReactorNet.initNet]
  rw [hL, exBind_ok]
  exact ⟨_, rfl⟩

/-- Claim C2: for every invocation of the evaluator callback, a failure raised
by the state scatter or by any reactor evaluation does not propagate across
the callback boundary: the outcome is never `raised`; whenever the body fails
the outcome is a fatal abort carrying the failure, and the callback returns
normally exactly when the body succeeds. -/
theorem c2_eval_never_escapes {σ ι : Type} (t : ℚ) (y ydot p : Nat → ℚ)
    (net : ReactorNet σ ι) :
    (∀ e, net.eval t y ydot p ≠ EvalOutcome.raised e) ∧
    (∀ e, net.evalBody t y ydot p = Except.error e →
      net.eval t y ydot p = EvalOutcome.aborted e) ∧
    (∀ net2 yd, net.evalBody t y ydot p = Except.ok (net2, yd) →
      net.eval t y ydot p = EvalOutcome.returned net2 yd) := by
  refine ⟨?_, ?_, ?_⟩
  · intro e
    simp only [ReactorNet.eval]
    cases hB : net.evalBody t y ydot p with
    | ok r => simp
    | error e2 => simp
  · intro e hB
    simp only [ReactorNet.eval, hB]
  · intro net2 yd hB
    simp only [ReactorNet.eval, hB]

/-- Witness for C2: a concrete reactor whose evaluation fails makes the
callback abort with that failure instead of raising it. -/
theorem c2_eval_never_escapes_witness :
    c2Net.eval 0 zbuf zbuf zbuf = EvalOutcome.aborted "boom" :=
  (c2_eval_never_escapes 0 zbuf zbuf zbuf c2Net).2.1 "boom" rfl

/-- Claim C4: initialize fails whenever more than one reactor is registered
and some qualifying reactor is the flow variant, and succeeds whenever at
most one reactor is registered, regardless of its variant. -/
theorem c4_flow_reactor_rule {σ ι : Type} (impl : IntegratorImpl ι) (t0 : ℚ)
    (rs : List (Reactor σ)) (integ0 : ι) :
    (1 < rs.length → (∃ x ∈ rs, x.rtype = RType.flowReactor) →
      ∃ e, (ReactorNet.mk0 rs integ0).initNet impl t0 = Except.error e) ∧
    (rs.length ≤ 1 →
      ∃ net2, (ReactorNet.mk0 rs integ0).initNet impl t0 = Except.ok net2) := by
  constructor
  · intro hlen hflow
    rcases initLoop_error_of_flow t0 rs.length hlen rs hflow
      { (ReactorNet.mk0 rs integ0 : ReactorNet σ ι) with
        m_nv := 0, m_reactors := [], m_nreactors := 0 } with ⟨e, hL⟩
    exact ⟨e, initNet_error_inv impl t0 _ e hL⟩
  · intro hlen
    rcases initLoop_ok_of_le_one t0 rs.length hlen rs
      { (ReactorNet.mk0 rs integ0 : ReactorNet σ ι) with
        m_nv := 0, m_reactors := [], m_nreactors := 0 } with ⟨netL, hL⟩
    exact initNet_ok_of_loop impl t0 _ netL hL

/-- Witness for C4: a two-reactor network containing a flow reactor fails to
initialize, while a lone flow reactor initializes successfully. -/
theorem c4_flow_reactor_rule_witness :
    (∃ e, (ReactorNet.mk0 [simpleR RType.flowReactor 1 0, simpleR RType.ordinary 1 0]
      ()).initNet unitImpl 0 = Except.error e) ∧
    (∃ net2, (ReactorNet.mk0 [simpleR RType.flowReactor 1 0] ()).initNet unitImpl 0 =
      Except.ok net2) :=
  ⟨(c4_flow_reactor_rule unitImpl 0 _ ()).1 (by decide)
      ⟨simpleR RType.flowReactor 1 0, by simp, rfl⟩,
    (c4_flow_reactor_rule unitImpl 0 _ ()).2 (by decide)⟩

/-- Counterexample for C5 as stated: the gather is called with buffer length
0 while the total equation count is 2, and it succeeds; no SetupError is
raised for the mismatched length. -/
theorem c5_length_check_counterexample :
    (c5Net.getInitialConditions 0 0 zbuf).toOption.isSome = true ∧
    c5Net.m_nv = 2 :=
  ⟨rfl, rfl⟩

/-- Claim C5 (amended): the gather never inspects the supplied length and
never fails; for any length argument it gathers each reactor initial local
state in registration order into the buffer at the standard offsets. -/
theorem c5_gather_ignores_length {σ ι : Type} (t0 : ℚ) (leny : Nat) (y0 : Nat → ℚ)
    (net : ReactorNet σ ι)
    (hpar : net.m_size = net.m_reactors.map fun r => r.neq)
    (hlen : ∀ r ∈ net.m_reactors, (r.getInitialConditions t0 r.state).length = r.neq) :
    ∃ buf, net.getInitialConditions t0 leny y0 = Except.ok buf ∧
      ∀ i (hi : i < net.m_reactors.length), ∀ j, j < (net.m_reactors.get ⟨i, hi⟩).neq →
        buf (sumTake net.m_size i + j) =
          ((net.m_reactors.get ⟨i, hi⟩).getInitialConditions t0
            (net.m_reactors.get ⟨i, hi⟩).state).getD j 0 := by
  refine ⟨_, rfl, ?_⟩
  intro i hi j hj
  have hch := gicLoop_chunks t0 net.m_reactors 0 y0 hlen i hi j hj
  rw [hpar]
  simpa using hch

/-- Witness for C5 (amended): the two-equation network gathered with the
wrong length 0 still produces the packed initial state. -/
theorem c5_gather_ignores_length_witness :
    ∃ buf, c5Net.getInitialConditions 0 0 zbuf = Except.ok buf ∧
      ∀ i (hi : i < c5Net.m_reactors.length), ∀ j,
        j < (c5Net.m_reactors.get ⟨i, hi⟩).neq →
        buf (sumTake c5Net.m_size i + j) =
          ((c5Net.m_reactors.get ⟨i, hi⟩).getInitialConditions 0
            (c5Net.m_reactors.get ⟨i, hi⟩).state).getD j 0 :=
  c5_gather_ignores_length 0 0 zbuf c5Net rfl
    (by
      intro r hr
      simp only [c5Net, List.mem_singleton] at hr
      subst hr
      rfl)

/-- Claim C8: the global component index is the sum of the local sizes of
the reactors before the given one plus that reactor own local index for the
name, and the lookup fails when the reactor does not recognize the name. -/
theorem c8_global_component_index {σ ι : Type} (net : ReactorNet σ ι)
    (name : String) (ridx : Nat) (r : Reactor σ)
    (hr : net.m_reactors[ridx]? = some r)
    (hsz : ridx ≤ net.m_size.length) :
    (∀ k, r.componentIndex name = some k →
      net.globalComponentIndex name ridx = Except.ok (sumTake net.m_size ridx + k)) ∧
    (r.componentIndex name = none →
      ∃ e, net.globalComponentIndex name ridx = Except.error e) := by
  constructor
  · intro k hk
    simp only [ReactorNet.globalComponentIndex, hr, hk]
    rw [range_foldl_sumTake net.m_size ridx hsz]
  · intro hk
    simp only [ReactorNet.globalComponentIndex, hr, hk]
    exact ⟨_, rfl⟩

/-- Witness for C8, the spec Scenario B: two reactors of local sizes 2 and 4,
the name X at local index 1 of the second reactor, global index 2 + 1 = 3. -/
theorem c8_global_component_index_witness :
    c8Net.globalComponentIndex "X" 1 = Except.ok 3 := by
  have h := (c8_global_component_index c8Net "X" 1 xR rfl (by decide)).1 1 rfl
  exact h

/-- Claim C9: gathering the initial conditions and immediately scattering the
same buffer leaves every reactor state unchanged, provided each reactor own
scatter applied to its own gathered local state is the identity. -/
theorem c9_gather_scatter_roundtrip {σ ι : Type} (t0 : ℚ) (leny : Nat)
    (y0 : Nat → ℚ) (net : ReactorNet σ ι)
    (hpar : net.m_size = net.m_reactors.map fun r => r.neq)
    (hlen : ∀ r ∈ net.m_reactors, (r.getInitialConditions t0 r.state).length = r.neq)
    (hid : ∀ r ∈ net.m_reactors, ∀ g : Nat → ℚ,
      (∀ m, m < r.neq → g m = (r.getInitialConditions t0 r.state).getD m 0) →
      r.updateState g r.state = Except.ok r.state) :
    ∃ buf, net.getInitialConditions t0 leny y0 = Except.ok buf ∧
      net.updateState buf = Except.ok net := by
  refine ⟨_, rfl, ?_⟩
  have hrt := updLoop_gic_roundtrip t0 net.m_reactors 0 y0 hlen hid
  rw [← hpar] at hrt
  simp only [ReactorNet.getInitialConditions, ReactorNet.updateState]
  rw [hrt, exBind_ok]

/-- Witness for C9: the concrete one-reactor network round trips. -/
theorem c9_gather_scatter_roundtrip_witness :
    ∃ buf, c9Net.getInitialConditions 0 1 zbuf = Except.ok buf ∧
      c9Net.updateState buf = Except.ok c9Net :=
  c9_gather_scatter_roundtrip 0 1 zbuf c9Net rfl
    (by
      intro r hr
      simp only [c9Net, List.mem_singleton] at hr
      subst hr
      rfl)
    (by
      intro r hr g hg
      simp only [c9Net, List.mem_singleton] at hr
      subst hr
      rfl)

/-- Claim C6: on success, advance leaves the current time exactly at the
requested time and scatters the integrator solution into the reactor states;
step leaves the current time at the time the solver actually reached, which
is at most the requested time under the solver step contract, scatters the
solution, and returns that reached time (the returned value is the stored
current time).  The scatter clauses are stated for already initialized
networks, where the offset table in use is the one of the network itself. -/
theorem c6_advance_step_time {σ ι : Type} (impl : IntegratorImpl ι)
    (hstep : ∀ (tt : ℚ) (i : ι), (impl.step tt i).1 ≤ tt)
    (T : ℚ) (net net2 net3 : ReactorNet σ ι) (tr : ℚ) :
    (net.advance impl T = Except.ok net2 →
      net2.m_time = T ∧
      (net.m_init = true →
        updLoop (impl.solution net2.m_integ) net.m_reactors net.m_size 0 =
          Except.ok net2.m_reactors)) ∧
    (net.step impl T = Except.ok (tr, net3) →
      net3.m_time = tr ∧ tr ≤ T ∧
      (net.m_init = true →
        updLoop (impl.solution net3.m_integ) net.m_reactors net.m_size 0 =
          Except.ok net3.m_reactors)) := by
  constructor
  · intro h
    rcases advance_ok_inv impl T net net2 h with ⟨net1, hlazy, rs, hL, hEq⟩
    constructor
    · rw [hEq]
    · intro hI
      rcases hlazy with ⟨_, hnet1⟩ | ⟨hfalse, _⟩
      · subst hnet1
        rw [hEq]
        exact hL
      · rw [hI] at hfalse
        exact absurd hfalse (by simp)
  · intro h
    rcases step_ok_inv impl T net tr net3 h with ⟨net1, hlazy, htr, rs, hL, hEq⟩
    refine ⟨by rw [hEq], ?_, ?_⟩
    · rw [htr]
      exact hstep T net1.m_integ
    · intro hI
      rcases hlazy with ⟨_, hnet1⟩ | ⟨hfalse, _⟩
      · subst hnet1
        rw [hEq]
        exact hL
      · rw [hI] at hfalse
        exact absurd hfalse (by simp)

/-- Witness for C6: on the concrete initialized network, advance(3) leaves
the current time at exactly 3. -/
theorem c6_advance_step_time_witness : w6Net2.m_time = 3 ∧ (w6Pair.2).m_time = w6Pair.1 :=
  ⟨((c6_advance_step_time unitImpl (fun tt _ => le_refl tt) 3 wNetI w6Net2 w6Net2
      0).1 rfl).1,
    ((c6_advance_step_time unitImpl (fun tt _ => le_refl tt) 3 wNetI w6Net2 w6Pair.2
      w6Pair.1).2 rfl).1⟩

/-- Claim C7: when advance or step is called on an uninitialized network with
no configured maximum step size, the maximum step size becomes the requested
time minus the current time and initialization runs; with a configured
maximum step size the value is kept and initialization runs; on an already
initialized network neither call reruns initialization (all the bookkeeping
built by initialization is untouched) nor changes the maximum step size. -/
theorem c7_lazy_init {σ ι : Type} (impl : IntegratorImpl ι) (T : ℚ)
    (net net2 : ReactorNet σ ι) (tr : ℚ)
    (hrun : net.advance impl T = Except.ok net2 ∨
      net.step impl T = Except.ok (tr, net2)) :
    (net.m_init = false → net.m_maxstep < 0 →
      net2.m_maxstep = T - net.m_time ∧ net2.m_init = true) ∧
    (net.m_init = false → 0 ≤ net.m_maxstep →
      net2.m_maxstep = net.m_maxstep ∧ net2.m_init = true) ∧
    (net.m_init = true →
      net2.m_maxstep = net.m_maxstep ∧ net2.m_size = net.m_size ∧
      net2.m_nparams = net.m_nparams ∧ net2.m_ntotpar = net.m_ntotpar ∧
      net2.m_nv = net.m_nv ∧ net2.m_atol = net.m_atol) := by
  have key : ∃ net1 : ReactorNet σ ι,
      ((net.m_init = true ∧ net1 = net) ∨ (net.m_init = false ∧
        (if net.m_maxstep < 0 then { net with m_maxstep := T - net.m_time }
          else net).initNet impl 0 = Except.ok net1)) ∧
      net2.m_maxstep = net1.m_maxstep ∧ net2.m_init = net1.m_init ∧
      net2.m_size = net1.m_size ∧ net2.m_nparams = net1.m_nparams ∧
      net2.m_ntotpar = net1.m_ntotpar ∧ net2.m_nv = net1.m_nv ∧
      net2.m_atol = net1.m_atol := by
    rcases hrun with h | h
    · rcases advance_ok_inv impl T net net2 h with ⟨net1, hlazy, rs, hL, hEq⟩
      exact ⟨net1, hlazy, by rw [hEq], by rw [hEq], by rw [hEq], by rw [hEq],
        by rw [hEq], by rw [hEq], by rw [hEq]⟩
    · rcases step_ok_inv impl T net tr net2 h with ⟨net1, hlazy, htr, rs, hL, hEq⟩
      exact ⟨net1, hlazy, by rw [hEq], by rw [hEq], by rw [hEq], by rw [hEq],
        by rw [hEq], by rw [hEq], by rw [hEq]⟩
  rcases key with ⟨net1, hlazy, hms, hin, hsz, hnp, hnt, hnv, hat⟩
  refine ⟨?_, ?_, ?_⟩
  · intro hIf hm
    rcases hlazy with ⟨hIt, _⟩ | ⟨_, hinit⟩
    · rw [hIf] at hIt
      exact absurd hIt (by simp)
    · rw [if_pos hm] at hinit
      have h1 := initNet_ok_eq impl 0 _ _ hinit
      constructor
      · rw [hms, h1]
      · rw [hin, h1]
  · intro hIf hm
    rcases hlazy with ⟨hIt, _⟩ | ⟨_, hinit⟩
    · rw [hIf] at hIt
      exact absurd hIt (by simp)
    · rw [if_neg (not_lt.mpr hm)] at hinit
      have h1 := initNet_ok_eq impl 0 _ _ hinit
      exact ⟨by rw [hms, h1], by rw [hin, h1]⟩
  · intro hIt
    rcases hlazy with ⟨_, hnet1⟩ | ⟨hIf, _⟩
    · subst hnet1
      exact ⟨hms, hsz, hnp, hnt, hnv, hat⟩
    · rw [hIt] at hIf
      exact absurd hIf (by simp)

/-- Witness for C7: advance(3) on the freshly constructed network (current
time 0, no configured maximum step) sets the maximum step size to 3 and
initializes. -/
theorem c7_lazy_init_witness : c7Net2.m_maxstep = 3 - c3Net0.m_time ∧ c7Net2.m_init = true :=
  (c7_lazy_init unitImpl 3 c3Net0 c7Net2 0 (Or.inl rfl)).1 rfl (by decide)

/-- Claim C3: after initializing a freshly constructed network, the total
equation count is the sum of the qualifying reactor sizes and the size table
lists those sizes in order; a successful callback run first scatters the
state vector into every reactor and then invokes reactor i evaluation with
the views of y, ydot and p at the offsets given by the running sums of the
sizes and sensitivity-parameter counts of the preceding reactors: the
derivative values of reactor i land in ydot exactly at its offset. -/
theorem c3_sizes_and_offsets {σ ι : Type} (impl : IntegratorImpl ι) (t0 t : ℚ)
    (rs : List (Reactor σ)) (integ0 : ι) (net2 net3 : ReactorNet σ ι)
    (y ydot p ydotF : Nat → ℚ)
    (hinit : (ReactorNet.mk0 rs integ0).initNet impl t0 = Except.ok net2)
    (heval : net2.eval t y ydot p = EvalOutcome.returned net3 ydotF)
    (hE : ∀ r ∈ net2.m_reactors, ∀ (s : σ) (ys ps : Nat → ℚ) (vals : List ℚ),
      r.evalEqs t ys ps s = Except.ok vals → vals.length = r.neq) :
    net2.m_nv = ((qualifying rs).map fun r => r.neq).sum ∧
    net2.m_size = (qualifying rs).map (fun r => r.neq) ∧
    net2.updateState y = Except.ok net3 ∧
    ∀ i (hi : i < net3.m_reactors.length),
      ∃ vals,
        (net3.m_reactors.get ⟨i, hi⟩).evalEqs t
          (ptrAdd y (sumTake net2.m_size i))
          (ptrAdd p (sumTake net2.m_nparams i))
          (net3.m_reactors.get ⟨i, hi⟩).state = Except.ok vals ∧
        vals.length = (net3.m_reactors.get ⟨i, hi⟩).neq ∧
        ∀ j, j < vals.length →
          ydotF (sumTake net2.m_size i + j) = vals.getD j 0 := by
  have hNet2 := initNet_ok_eq impl t0 _ _ hinit
  have hBody : net2.evalBody t y ydot p = Except.ok (net3, ydotF) := by
    revert heval
    simp only [ReactorNet.eval]
    cases hB : net2.evalBody t y ydot p with
    | ok r =>
      intro he
      cases r with
      | mk a b =>
        simp only [EvalOutcome.returned.injEq] at he
        rw [he.1, he.2]
    | error e =>
      intro he
      exact absurd he (by simp)
  have hInv : ∃ ydF, net2.updateState y = Except.ok net3 ∧
      evalLoop t y p net3.m_reactors net3.m_size net3.m_nparams 0 0 ydot =
        Except.ok ydF ∧ ydF = ydotF := by
    revert hBody
    simp only [ReactorNet.evalBody]
    cases hU : net2.updateState y with
    | error e =>
      intro hB
      rw [exBind_error] at hB
      exact absurd hB (by simp)
    | ok netU =>
      intro hB
      rw [exBind_ok] at hB
      cases hL : evalLoop t y p netU.m_reactors netU.m_size netU.m_nparams 0 0 ydot with
      | error e =>
        rw [hL, exBind_error] at hB
        exact absurd hB (by simp)
      | ok ydF =>
        rw [hL, exBind_ok] at hB
        simp only [Except.ok.injEq, Prod.mk.injEq] at hB
        rcases hB with ⟨h1, h2⟩
        subst h1
        exact ⟨ydF, rfl, hL, h2⟩
  rcases hInv with ⟨ydF, hUp, hLoop, hYF⟩
  rw [hYF] at hLoop
  rcases updateState_ok_inv _ _ _ hUp with ⟨rsU, hUL, hUEq⟩
  have hShape := updLoop_shape y net2.m_reactors net2.m_size 0 rsU hUL
  have hR3 : net3.m_reactors = rsU := by rw [hUEq]
  have hS3 : net3.m_size = net2.m_size := by rw [hUEq]
  have hP3 : net3.m_nparams = net2.m_nparams := by rw [hUEq]
  have hsz2 : net2.m_size = net2.m_reactors.map (fun r => r.neq) := by
    rw [hNet2]
    simp [ReactorNet.mk0, List.map_map, Function.comp, initR]
  have hnp2 : net2.m_nparams = net2.m_reactors.map (fun r => r.nSensParams) := by
    rw [hNet2]
    simp [ReactorNet.mk0, List.map_map, Function.comp, initR]
  have hsz3 : net2.m_size = net3.m_reactors.map (fun r => r.neq) := by
    rw [hR3, sameShape_map_neq hShape, ← hsz2]
  have hnp3 : net2.m_nparams = net3.m_reactors.map (fun r => r.nSensParams) := by
    rw [hR3, sameShape_map_nparams hShape, ← hnp2]
  have hE3 : ∀ r ∈ net3.m_reactors, ∀ (ys ps : Nat → ℚ) (vals : List ℚ),
      r.evalEqs t ys ps r.state = Except.ok vals → vals.length = r.neq := by
    intro b hb ys ps vals hok
    rw [hR3] at hb
    rcases sameShape_mem hShape b hb with ⟨a, ha, hev, hneq⟩
    rw [hneq]
    exact hE a ha b.state ys ps vals (by rw [← hev]; exact hok)
  have hLoop2 : evalLoop t y p net3.m_reactors (net3.m_reactors.map fun r => r.neq)
      (net3.m_reactors.map fun r => r.nSensParams) 0 0 ydot = Except.ok ydotF := by
    rw [hS3, hsz3, hP3, hnp3] at hLoop
    exact hLoop
  refine ⟨?_, ?_, hUp, ?_⟩
  · rw [hNet2]
    simp [ReactorNet.mk0]
  · rw [hNet2]
    simp [ReactorNet.mk0]
  · intro i hi
    rcases evalLoop_ok_spec t y p net3.m_reactors 0 0 ydot ydotF hE3 hLoop2 i hi with
      ⟨vals, hv, hlen, hyd⟩
    refine ⟨vals, ?_, hlen, ?_⟩
    · rw [hsz3, hnp3]
      simpa using hv
    · intro j hj
      have h2 := hyd j hj
      rw [hsz3]
      simpa using h2

/-- Witness for C3 on the concrete one-reactor network. -/
theorem c3_sizes_and_offsets_witness :
    c3Net2.m_nv = ((qualifying [simpleR RType.ordinary 1 0]).map fun r => r.neq).sum ∧
    c3Net2.m_size = (qualifying [simpleR RType.ordinary 1 0]).map (fun r => r.neq) :=
  by
    have h := c3_sizes_and_offsets unitImpl 0 0 [simpleR RType.ordinary 1 0] ()
      c3Net2 c3Net3 zbuf zbuf zbuf c3Ydot rfl rfl
      (by
        intro r hr test ys ps vals hok
        have hmr : c3Net2.m_reactors = [simpleR RType.ordinary 1 0] := rfl
        rw [hmr] at hr
        have hr2 : r = simpleR RType.ordinary 1 0 := by
          simpa using hr
        subst hr2
        simp only [simpleR, Except.ok.injEq] at hok
        subst hok
        rfl)
    exact ⟨h.1, h.2.1⟩

/-- Claim C1 (evidence of the divergence): re-initializing the same
one-reactor network does not reset the size table, the per-reactor
sensitivity-count table, or the total sensitivity-parameter count; after a
second initialize the total is 2 although the single qualifying reactor has
one sensitivity parameter, and the size table carries two entries for one
reactor. -/
theorem c1_reinit_bookkeeping_bug :
    c1Net0.initNet unitImpl 0 = Except.ok c1Net1 ∧
    c1Net1.initNet unitImpl 0 = Except.ok c1Net2 ∧
    c1Net2.m_reactors.length = 1 ∧
    (c1Net2.m_reactors.map fun r => r.nSensParams).sum = 1 ∧
    c1Net2.m_ntotpar = 2 ∧
    c1Net2.m_size = [2, 2] ∧
    c1Net2.m_nparams = [1, 1] :=
  ⟨rfl, rfl, rfl, rfl, rfl, rfl, rfl⟩

end CanteraZeroD

namespace CanteraBase

/-- Claim C10: for a value-returning method with an after delegate installed,
when the delegate reports a nonzero flag the combined method returns the sum
of the original result and the delegate result, and when the delegate reports
zero the original result is returned unchanged. -/
theorem c10_after_delegate_sums {R A : Type} [Add R] (func : A → Int × R)
    (base combined : A → R)
    (h : makeDelegateValue func "after" base = Except.ok combined) :
    ∀ a, ((func a).1 ≠ 0 → combined a = base a + (func a).2) ∧
      ((func a).1 = 0 → combined a = base a) := by
  have hdef : makeDelegateValue func "after" base =
      Except.ok (fun a =>
        let ret1 := base a
        let done := (func a).1
        if done ≠ 0 then ret1 + (func a).2 else ret1) := rfl
  rw [hdef] at h
  simp only [Except.ok.injEq] at h
  subst h
  intro a
  constructor
  · intro hne
    show (if (func a).1 ≠ 0 then base a + (func a).2 else base a) = base a + (func a).2
    rw [if_pos hne]
  · intro he
    show (if (func a).1 ≠ 0 then base a + (func a).2 else base a) = base a
    rw [if_neg (by simp [he])]

/-- Witness for C10: with the original returning 4 and a successful delegate
returning 3 the combined method returns 7; with a delegate reporting zero the
original result 4 is returned. -/
theorem c10_after_delegate_sums_witness :
    c10Comb () = c10Base () + (c10Func ()).2 ∧ c10CombZero () = c10Base () :=
  ⟨(c10_after_delegate_sums c10Func c10Base c10Comb rfl ()).1 (by decide),
    (c10_after_delegate_sums c10FuncZero c10Base c10CombZero rfl ()).2 rfl⟩

end CanteraBase
